import Mathlib

/-!
Verification development for the kekkai file-integrity monitor.

This file gives a shallow embedding of the integrity engine:

* the walker (`collectFiles`) with the repository's glob dialect
  (`matchGlob`, `matchExcludePatterns`, `shouldSkipDirectory`),
* the hasher worker (`recordFor`, `workerProcess`) including the
  metadata-cache fast path and the probabilistic re-hash draw,
* the verifier diff (`fileIssue`, `manifestIssue`, `addedIssue`,
  `verifyIssues`, `verifyWithCalculator`),
* the metadata cache, both at the semantic level (`MetadataCache`,
  `CheckMetadata`, `IsValidForManifest`, `EnableMetadataCache`) and at the
  byte level of the persisted JSON file (`marshalIndentDoc`,
  `parseCacheDoc`, `verifyCacheIntegrityDoc`, `loadCacheBytes`,
  `saveCacheBytes`).

External primitives of the Go standard library are treated as parameters:
SHA-256 (hex encoded) is an arbitrary function `sha256Hex : String → String`
and the shell matcher of the path/filepath package is an arbitrary function
`fpMatch : String → String → Bool`; the repository's own logic layered on
top of them is embedded concretely.  Machine integers (int64, nanosecond
timestamps) are modelled as `Int`; float64 probabilities as `Rat`.
-/

set_option maxRecDepth 100000

namespace Kekkai

/-- External primitives used by the engine: `sha256Hex` stands for
hex-encoded SHA-256 of a byte string (crypto/sha256 + encoding/hex),
`fpMatch` for Go's `path/filepath.Match` single-component shell matcher.
The repository calls both as black boxes. -/
structure Prim where
  sha256Hex : String → String
  fpMatch : String → String → Bool

/-- One entry of a hash result or manifest; embeds `hash.FileInfo`
(hash.go, cache-enabled version): path, hash, size, mod_time,
is_symlink, link_target. -/
structure FileInfo where
  path : String
  hash : String
  size : Int
  modTime : Int
  is_symlink : Bool
  link_target : String
deriving DecidableEq, Repr

/-- A non-directory filesystem object: a regular file with its content
bytes, or a symlink with its readlink target. -/
inductive FSNode where
  | file (contents : String)
  | symlink (target : String)
deriving DecidableEq, Repr

/-- One entry of the scanned tree: the forward-slash relative path plus
the lstat data the workers read (size, mtime, ctime in nanoseconds).
Directories are implicit: they are the proper `/`-prefixes of the paths. -/
structure FSEntry where
  path : String
  node : FSNode
  size : Int
  modTime : Int
  ctime : Int
deriving DecidableEq, Repr

/-- Embeds `hash.Result` (cache-enabled version: files and file_count). -/
structure Result where
  files : List FileInfo
  fileCount : Nat
deriving DecidableEq, Repr

/-- Embeds `manifest.Manifest`. -/
structure Manifest where
  version : String
  fileCount : Nat
  generatedAt : String
  excludes : List String
  files : List FileInfo
deriving DecidableEq, Repr

/-- Go's `strings.HasPrefix`. -/
def strStartsWith (s pre : String) : Bool :=
  pre.data.isPrefixOf s.data

/-- Go's `strings.HasSuffix`. -/
def strEndsWith (s suf : String) : Bool :=
  suf.data.reverse.isPrefixOf s.data.reverse

/-- Whether `sub` occurs in `cs` (Go's `strings.Contains` on the
character level). -/
def charListContains (sub : List Char) : List Char → Bool
  | [] => sub.isEmpty
  | c :: rest => sub.isPrefixOf (c :: rest) || charListContains sub rest

/-- Go's `strings.Contains s sub`. -/
def containsSub (s sub : String) : Bool :=
  charListContains sub.data s.data

/-- Splits a character list at every separator occurrence, left to
right (Go's `strings.ReplaceAll` loop skeleton), with `fuel`
bounding the recursion. -/
def replaceAllChars (pat rep : List Char) : Nat → List Char → List Char
  | 0, cs => cs
  | fuel + 1, cs =>
    if pat.isPrefixOf cs && !pat.isEmpty then
      rep ++ replaceAllChars pat rep fuel (cs.drop pat.length)
    else
      match cs with
      | [] => []
      | c :: rest => c :: replaceAllChars pat rep fuel rest

/-- Go's `strings.ReplaceAll` for non-empty patterns. -/
def replaceAllStr (s pat rep : String) : String :=
  ⟨replaceAllChars pat.data rep.data (s.data.length + 1) s.data⟩

/-- Splits a path into its slash-separated components. -/
def splitOnSlash : List Char → List (List Char)
  | [] => [[]]
  | c :: rest =>
    match splitOnSlash rest with
    | [] => [[]]
    | g :: gs => if c == '/' then [] :: g :: gs else (c :: g) :: gs

/-- The slash-separated components of a relative path. -/
def pathComponents (p : String) : List String :=
  (splitOnSlash p.data).map (fun cs => ⟨cs⟩)

/-- Go's `filepath.Base` restricted to non-empty, slash-normalized
relative paths without trailing separators (the only inputs the walker
produces); the empty string maps to "." as in Go. -/
def baseName (p : String) : String :=
  if p == "" then "."
  else ((pathComponents p).getLast?).getD p

/-- Byte-lexicographic strict order on character lists.  UTF-8 byte
order coincides with code-point order, so this is Go's `<` on strings. -/
def charListLtB : List Char → List Char → Bool
  | [], [] => false
  | [], _ :: _ => true
  | _ :: _, [] => false
  | a :: as, b :: bs =>
    if a.toNat < b.toNat then true
    else if b.toNat < a.toNat then false
    else charListLtB as bs

/-- Go's `<` on strings. -/
def strLtB (a b : String) : Bool :=
  charListLtB a.data b.data

/-- ASCII lower-casing of one character. -/
def lowerChar (c : Char) : Char :=
  if 65 ≤ c.toNat && c.toNat ≤ 90 then Char.ofNat (c.toNat + 32) else c

/-- ASCII lower-casing of a string (what Go's case-insensitive JSON
field fold amounts to on ASCII field names). -/
def lowerStr (s : String) : String :=
  ⟨s.data.map lowerChar⟩

/-- Embeds `matchGlob` (hash.go): the `**` special cases layered over the
`filepath.Match` primitive. -/
def matchGlob (pr : Prim) (pattern path : String) : Bool :=
  if containsSub pattern "**" then
    if pattern == "**/*" || pattern == "**" then true
    else if strEndsWith pattern "/**" then
      let pre := pattern.dropRight 3
      strStartsWith path (pre ++ "/")
    else if strStartsWith pattern "**/" then
      let suf := pattern.drop 3
      pr.fpMatch suf (baseName path)
    else
      let simplified := replaceAllStr pattern "**" "*"
      pr.fpMatch simplified path
  else pr.fpMatch pattern path

/-- Embeds `matchExcludePatterns` (hash.go). -/
def matchExcludePatterns (pr : Prim) (path : String) (excludes : List String) : Bool :=
  excludes.any (fun pattern => matchGlob pr pattern path)

/-- Embeds `shouldSkipDirectory` (hash.go, cache-enabled version): early
pruning of whole directory subtrees. -/
def shouldSkipDirectory (dirPath : String) (excludes : List String) : Bool :=
  excludes.any (fun pattern =>
    (if strEndsWith pattern "/**" then
      let pre := pattern.dropRight 3
      if strStartsWith pre "**/" then
        let dirName := pre.drop 3
        dirPath == dirName || strEndsWith dirPath ("/" ++ dirName)
      else dirPath == pre
    else false)
    || pattern == "**" || pattern == "**/*")

/-- The directories `filepath.Walk` visits on the way to a file with
relative path `p`: the root (relative path ".") and every proper
component prefix of `p`. -/
def dirPrefixes (p : String) : List String :=
  let comps := pathComponents p
  "." :: (List.range (comps.length - 1)).map
    (fun i => String.intercalate "/" (comps.take (i + 1)))

/-- A file survives the walk of `collectFiles` iff its own relative path
matches no exclude pattern and no enclosing directory was pruned
(`filepath.SkipDir` is returned for a directory when it matches an
exclude pattern or `shouldSkipDirectory` holds). -/
def isCollected (pr : Prim) (excludes : List String) (p : String) : Bool :=
  !matchExcludePatterns pr p excludes
    && (dirPrefixes p).all
      (fun d => !(matchExcludePatterns pr d excludes || shouldSkipDirectory d excludes))

/-- Embeds `collectFiles` (hash.go, cache-enabled version) on a tree given
as a list of non-directory entries: the walk visits the entries in order
and keeps exactly those that `isCollected` admits.  I/O errors during the
walk are outside the model (the tree is given). -/
def collectFiles (pr : Prim) (tree : List FSEntry) (excludes : List String) : List FSEntry :=
  tree.filter (fun e => isCollected pr excludes e.path)

/-- The worker body of `calculateFileHashes` for one job when no metadata
cache is attached (`c.metadataCache == nil`): symlinks hash the link
descriptor string, regular files hash their contents; size, mtime and
the symlink flag come from lstat, the link target from readlink. -/
def recordFor (pr : Prim) (e : FSEntry) : FileInfo :=
  match e.node with
  | .symlink target =>
      { path := e.path
        hash := pr.sha256Hex ("symlink:" ++ target)
        size := e.size
        modTime := e.modTime
        is_symlink := true
        link_target := target }
  | .file contents =>
      { path := e.path
        hash := pr.sha256Hex contents
        size := e.size
        modTime := e.modTime
        is_symlink := false
        link_target := "" }

/-- Insertion step of the final `sort.Slice` on `Path <`. -/
def insertByPath (a : FileInfo) : List FileInfo → List FileInfo
  | [] => [a]
  | b :: rest => if strLtB a.path b.path then a :: b :: rest else b :: insertByPath a rest

/-- The `sort.Slice(fileInfos, Path <)` step of `CalculateDirectory`,
realised as insertion sort: any algorithm produces the same list once
paths are duplicate-free (proved below). -/
def sortByPath : List FileInfo → List FileInfo
  | [] => []
  | a :: rest => insertByPath a (sortByPath rest)

/-- Embeds `CalculateDirectory` (hash.go, cache-enabled version) without a
metadata cache: collect, hash every collected entry, sort by path.  The
initial `filepath.EvalSymlinks` of the root is outside the model (the
tree passed in is the resolved one); worker scheduling is studied
separately via permutations of the collected list. -/
def calculateDirectory (pr : Prim) (tree : List FSEntry) (excludes : List String) : Result :=
  let collected := collectFiles pr tree excludes
  let fileInfos := sortByPath (collected.map (recordFor pr))
  { files := fileInfos, fileCount := fileInfos.length }

/-- Embeds `Generator.Generate` (manifest.go); `generatedAt` is the
RFC-3339 clock reading, passed in. -/
def Generate (pr : Prim) (tree : List FSEntry) (excludes : List String)
    (generatedAt : String) : Manifest :=
  let result := calculateDirectory pr tree excludes
  { version := "1.0"
    fileCount := result.fileCount
    generatedAt := generatedAt
    excludes := excludes
    files := result.files }

/-- Renders a symlink flag the way `verifyWithCalculator` does in its
type-change message. -/
def typeName (b : Bool) : String :=
  if b then "symlink" else "file"

/-- The issue (if any) `verifyWithCalculator` (manifest.go) emits for a
path present in both maps: the if/continue chain comparing type, then
hash, then size — at most one finding per path, in that priority order. -/
def fileIssue (expected actual : FileInfo) : Option String :=
  if expected.is_symlink != actual.is_symlink then
    some ("modified: " ++ expected.path ++ " (type "
      ++ typeName expected.is_symlink ++ "→" ++ typeName actual.is_symlink ++ ")")
  else if expected.hash != actual.hash then
    some ("modified: " ++ expected.path ++ " (hash)")
  else if expected.size != actual.size then
    some ("modified: " ++ expected.path ++ " (size "
      ++ toString expected.size ++ "→" ++ toString actual.size ++ ")")
  else none

/-- Go map lookup on a path-keyed file list.  The Go code builds
`map[string]hash.FileInfo` from these lists; on the duplicate-free path
lists the engine produces, first-match lookup coincides with it. -/
def lookupPath (files : List FileInfo) (p : String) : Option FileInfo :=
  files.find? (fun f => f.path == p)

/-- The issue the first loop of `verifyWithCalculator` emits for one
manifest entry: `deleted:` when the path is gone, else the
type/hash/size comparison. -/
def manifestIssue (currentFiles : List FileInfo) (m : FileInfo) : Option String :=
  match lookupPath currentFiles m.path with
  | some c => fileIssue m c
  | none => some ("deleted: " ++ m.path)

/-- The issue the second loop of `verifyWithCalculator` emits for one
current entry: `added:` when the manifest lacks the path. -/
def addedIssue (manifestFiles : List FileInfo) (c : FileInfo) : Option String :=
  match lookupPath manifestFiles c.path with
  | some _ => none
  | none => some ("added: " ++ c.path)

/-- All issues of `verifyWithCalculator`: the loop over the manifest map
followed by the loop over the current map.  Go iterates the maps in
unspecified order; the theorems below are stated order-insensitively or
per path. -/
def verifyIssues (manifestFiles currentFiles : List FileInfo) : List String :=
  manifestFiles.filterMap (manifestIssue currentFiles)
    ++ currentFiles.filterMap (addedIssue manifestFiles)

/-- Embeds `Manifest.verifyWithCalculator` (manifest.go): recompute the
current tree with the manifest's stored excludes, diff, and fail exactly
when findings exist. -/
def verifyWithCalculator (pr : Prim) (m : Manifest) (tree : List FSEntry) :
    Except String Unit :=
  let currentResult := calculateDirectory pr tree m.excludes
  match verifyIssues m.files currentResult.files with
  | [] => .ok ()
  | issues => .error ("integrity check failed:\n" ++ String.intercalate "\n" issues)

/-- Embeds the cancellation behaviour of `calculateFileHashes` (hash.go,
cache-enabled version, no rate limiter).  `cancelAfter = some k` models a
context whose Done channel fires once `k` jobs have completed: the job
feeder closes the queue and every worker returns through the
`ctx.Done()` select arm *without sending anything on the errors
channel*.  The collector then sees the records of the completed jobs and
an empty error list, so it returns them with a nil error — the Go error
path is reached only when some worker pushed a stat/read error. -/
def calculateFileHashesCancelled (pr : Prim) (cancelAfter : Option Nat)
    (files : List FSEntry) : Except String (List FileInfo) :=
  let processed :=
    match cancelAfter with
    | none => files
    | some k => files.take k
  let collectedErrors : List String := []
  match collectedErrors with
  | err :: _ => .error err
  | [] => .ok (processed.map (recordFor pr))

/-- The two per-platform builds of `getCtime` / `isTimeEqualPlatform`. -/
inductive Platform where
  | darwin
  | linux
deriving DecidableEq, Repr

/-- Embeds `isTimeEqualPlatform`: the darwin build (time_darwin.go)
compares instants exactly; the linux build (time_linux.go) tolerates up
to `1 * time.Microsecond` = 1000 ns of absolute drift.  Instants are
nanosecond counts. -/
def isTimeEqualPlatform : Platform → Int → Int → Bool
  | .darwin, t1, t2 => t1 == t2
  | .linux, t1, t2 =>
    if t1 == t2 then true
    else
      let diff := t1 - t2
      let diff := if diff < 0 then -diff else diff
      decide (diff ≤ 1000)

/-- Embeds `cache.MetadataEntry`: times in nanoseconds. -/
structure MetadataEntry where
  path : String
  size : Int
  modTime : Int
  ctime : Int
deriving DecidableEq, Repr

/-- Embeds `cache.MetadataCache` (the in-memory document), times in
nanoseconds. -/
structure MetadataCache where
  version : String
  createdAt : Int
  manifestGenTime : Int
  cacheHash : String
  files : List (String × MetadataEntry)
deriving DecidableEq, Repr

/-- Lookup in the `files` map of the cache document (Go map semantics on
duplicate-free keys). -/
def lookupEntry (files : List (String × MetadataEntry)) (p : String) : Option MetadataEntry :=
  (files.find? (fun kv => kv.1 == p)).map (fun kv => kv.2)

/-- The current lstat data of a path, as `CheckMetadata` reads it.  A
failed `Lstat` or an unavailable `syscall.Stat_t` is the `none` case. -/
structure Stat where
  size : Int
  modTime : Int
  ctime : Int
deriving DecidableEq, Repr

/-- Embeds `CheckMetadata` (part_003, the variant with the
platform-split ctime comparison): `v.data == nil`, a missing entry or a
failed stat give false; then size and mtime must compare exactly equal
and ctime via `isTimeEqualPlatform`.  The atomic hit/miss counters are
observability only and are not modelled. -/
def CheckMetadata (pf : Platform) (data : Option MetadataCache) (path : String)
    (st : Option Stat) : Bool :=
  match data with
  | none => false
  | some d =>
    match lookupEntry d.files path with
    | none => false
    | some entry =>
      match st with
      | none => false
      | some s =>
        if s.size != entry.size then false
        else if s.modTime != entry.modTime then false
        else if !(isTimeEqualPlatform pf s.ctime entry.ctime) then false
        else true

/-- Embeds `IsValidForManifest` (cache.go / part_003):
`CreatedAt.After(t) || CreatedAt.Equal(t)`, false when `v.data` is nil. -/
def IsValidForManifest (data : Option MetadataCache) (manifestTime : Int) : Bool :=
  match data with
  | none => false
  | some d => decide (manifestTime < d.createdAt) || decide (d.createdAt = manifestTime)

/-- Embeds `Clear` / the fresh document both `Load` failure paths and
`Clear` install: version "2.0", `CreatedAt` = now, no entries,
`ManifestGenTime` and `CacheHash` at their zero values. -/
def clearCache (now : Int) : MetadataCache :=
  { version := "2.0", createdAt := now, manifestGenTime := 0, cacheHash := "", files := [] }

/-- Embeds `SetManifestTime`. -/
def SetManifestTime (d : MetadataCache) (t : Int) : MetadataCache :=
  { d with manifestGenTime := t }

/-- Embeds the validity step of `EnableMetadataCache` (hash.go) after a
successful `Load`: record the manifest time, and clear the cache when it
is not valid for that time. -/
def EnableMetadataCache (loaded : MetadataCache) (manifestTime now : Int) : MetadataCache :=
  let d := SetManifestTime loaded manifestTime
  if IsValidForManifest (some d) manifestTime then d else clearCache now

/-- Embeds the cache-relevant state of `hash.Calculator`:
`metadataCache = none` models a nil `*cache.MetadataVerifier`,
`some data` an attached verifier whose `data` field is `data` (itself
`none` when nil); `manifestHashes = none` models a nil map. -/
structure Calculator where
  metadataCache : Option (Option MetadataCache)
  verifyProbability : Rat
  manifestHashes : Option (List (String × String))

/-- Go map lookup in the manifest hash map. -/
def lookupHash (hashes : List (String × String)) (p : String) : Option String :=
  (hashes.find? (fun kv => kv.1 == p)).map (fun kv => kv.2)

/-- Embeds the per-job worker body of `calculateFileHashes` (hash.go,
cache-enabled version, lines 830-900): `fileHash` starts as the empty
string and `needHashCalculation` as true; when a cache is attached, the
entry is not a symlink, the metadata check succeeds and the draw
`verifyProbability == 0 || rand.Float64() > verifyProbability` chooses
to skip, the manifest hash is copied when the map has the path, the
calculation is skipped with `fileHash` left empty when the map is nil,
and the hash is recomputed when the map exists but lacks the path.
`randVal` is the `rand.Float64()` draw. -/
def workerProcess (pr : Prim) (pf : Platform) (c : Calculator) (randVal : Rat)
    (e : FSEntry) : FileInfo :=
  let isLink : Bool := match e.node with | .symlink _ => true | .file _ => false
  let st : Stat := { size := e.size, modTime := e.modTime, ctime := e.ctime }
  let cacheStep : String × Bool :=
    match c.metadataCache with
    | none => ("", true)
    | some data =>
      if !isLink && CheckMetadata pf data e.path (some st)
          && (c.verifyProbability == 0 || Rat.blt c.verifyProbability randVal) then
        match c.manifestHashes with
        | some hs =>
          match lookupHash hs e.path with
          | some h => (h, false)
          | none => ("", true)
        | none => ("", false)
      else ("", true)
  let fileHash :=
    if cacheStep.2 then
      match e.node with
      | .symlink target => pr.sha256Hex ("symlink:" ++ target)
      | .file contents => pr.sha256Hex contents
    else cacheStep.1
  { path := e.path
    hash := fileHash
    size := e.size
    modTime := e.modTime
    is_symlink := isLink
    link_target := match e.node with | .symlink t => t | .file _ => "" }

/-- Opening brace of a JSON object. -/
def jLBrace : String := "\x7b"

/-- Closing brace of a JSON object. -/
def jRBrace : String := "\x7d"

/-- Opening brace character. -/
def lbraceChar : Char := Char.ofNat 123

/-- Closing brace character. -/
def rbraceChar : Char := Char.ofNat 125

/-- Opening bracket character. -/
def lbrackChar : Char := Char.ofNat 91

/-- Closing bracket character. -/
def rbrackChar : Char := Char.ofNat 93

/-- A JSON value, for the byte-level model of the persisted cache file. -/
inductive JVal where
  | jstr (s : String)
  | jnum (n : Int)
  | jbool (b : Bool)
  | jnull
  | jarr (xs : List JVal)
  | jobj (fields : List (String × JVal))

/-- JSON insignificant whitespace (RFC 8259, as encoding/json accepts). -/
def isJsonWs (c : Char) : Bool :=
  c == ' ' || c == '\t' || c == '\n' || c == '\r'

/-- Drops leading JSON whitespace. -/
def skipWs : List Char → List Char
  | [] => []
  | c :: rest => if isJsonWs c then skipWs rest else c :: rest

/-- Body of a JSON string after the opening quote.  Handles the
single-character escapes; `\u` escapes and raw control characters are
rejected (nothing the cache writer emits contains them). -/
def parseStringBody : List Char → List Char → Option (String × List Char)
  | _, [] => none
  | acc, c :: rest =>
    if c == '\"' then some (⟨acc.reverse⟩, rest)
    else if c == '\\' then
      match rest with
      | [] => none
      | e :: rest2 =>
        if e == '\"' then parseStringBody ('\"' :: acc) rest2
        else if e == '\\' then parseStringBody ('\\' :: acc) rest2
        else if e == '/' then parseStringBody ('/' :: acc) rest2
        else if e == 'n' then parseStringBody ('\n' :: acc) rest2
        else if e == 't' then parseStringBody ('\t' :: acc) rest2
        else if e == 'r' then parseStringBody ('\r' :: acc) rest2
        else if e == 'b' then parseStringBody (Char.ofNat 8 :: acc) rest2
        else if e == 'f' then parseStringBody (Char.ofNat 12 :: acc) rest2
        else none
    else if c.toNat < 32 then none
    else parseStringBody (c :: acc) rest

/-- Decimal digits to a natural number. -/
def digitsToNat (ds : List Char) : Nat :=
  ds.foldl (fun a c => a * 10 + (c.toNat - 48)) 0

/-- Parses a JSON integer (sign and digits).  Fractions and exponents
are rejected: the only numbers in a cache document are int64 sizes, for
which a fractional value would make Go's decode fail as well. -/
def parseNumber (cs : List Char) : Option (Int × List Char) :=
  let (neg, cs1) :=
    match cs with
    | c :: rest => if c == '-' then (true, rest) else (false, cs)
    | [] => (false, cs)
  let ds := cs1.takeWhile (fun c => c.isDigit)
  let rest := cs1.dropWhile (fun c => c.isDigit)
  if ds.isEmpty then none
  else
    match rest with
    | c :: _ => if c == '.' || c == 'e' || c == 'E' then none
                else some (if neg then -(digitsToNat ds : Int) else (digitsToNat ds : Int), rest)
    | [] => some (if neg then -(digitsToNat ds : Int) else (digitsToNat ds : Int), rest)

mutual

/-- Fuelled parser for one JSON value. -/
def parseJVal : Nat → List Char → Option (JVal × List Char)
  | 0, _ => none
  | fuel + 1, cs =>
    match skipWs cs with
    | [] => none
    | c :: rest =>
      if c == '\"' then
        match parseStringBody [] rest with
        | some (s, r) => some (.jstr s, r)
        | none => none
      else if c == lbraceChar then
        match skipWs rest with
        | d :: rest2 =>
          if d == rbraceChar then some (.jobj [], rest2)
          else
            match parseFieldsLoop fuel (d :: rest2) [] with
            | some (fields, r) => some (.jobj fields, r)
            | none => none
        | [] => none
      else if c == lbrackChar then
        match skipWs rest with
        | d :: rest2 =>
          if d == rbrackChar then some (.jarr [], rest2)
          else
            match parseItemsLoop fuel (d :: rest2) [] with
            | some (items, r) => some (.jarr items, r)
            | none => none
        | [] => none
      else
        match c :: rest with
        | 't' :: 'r' :: 'u' :: 'e' :: r => some (.jbool true, r)
        | 'f' :: 'a' :: 'l' :: 's' :: 'e' :: r => some (.jbool false, r)
        | 'n' :: 'u' :: 'l' :: 'l' :: r => some (.jnull, r)
        | cs2 =>
          match parseNumber cs2 with
          | some (n, r) => some (.jnum n, r)
          | none => none

/-- Fuelled loop over the members of a JSON object (after at least one
member is known to follow). -/
def parseFieldsLoop : Nat → List Char → List (String × JVal) →
    Option (List (String × JVal) × List Char)
  | 0, _, _ => none
  | fuel + 1, cs, acc =>
    match skipWs cs with
    | c :: rest =>
      if c == '\"' then
        match parseStringBody [] rest with
        | some (key, r1) =>
          match skipWs r1 with
          | ':' :: r2 =>
            match parseJVal fuel r2 with
            | some (v, r3) =>
              match skipWs r3 with
              | ',' :: r4 => parseFieldsLoop fuel r4 (acc ++ [(key, v)])
              | d :: r4 =>
                if d == rbraceChar then some (acc ++ [(key, v)], r4) else none
              | [] => none
            | none => none
          | _ => none
        | none => none
      else none
    | [] => none

/-- Fuelled loop over the items of a JSON array. -/
def parseItemsLoop : Nat → List Char → List JVal → Option (List JVal × List Char)
  | 0, _, _ => none
  | fuel + 1, cs, acc =>
    match parseJVal fuel cs with
    | some (v, r1) =>
      match skipWs r1 with
      | ',' :: r2 => parseItemsLoop fuel r2 (acc ++ [v])
      | d :: r2 => if d == rbrackChar then some (acc ++ [v], r2) else none
      | [] => none
    | none => none

end

/-- Parses a complete JSON document: one value followed only by
whitespace, as `json.Unmarshal` requires. -/
def parseJson (s : String) : Option JVal :=
  match parseJVal (s.length * 4 + 16) s.data with
  | some (v, rest) => if (skipWs rest).isEmpty then some v else none
  | none => none

/-- The serialized form of a `cache.MetadataEntry`: the two `time.Time`
fields are kept as the RFC-3339 strings Go writes and reads back
(round-tripping is the identity on the canonical RFC3339Nano form the
cache writer emits). -/
structure CacheEntryDoc where
  path : String
  size : Int
  modTime : String
  ctime : String
deriving DecidableEq, Repr

/-- The serialized form of a `cache.MetadataCache` document. -/
structure CacheDoc where
  version : String
  createdAt : String
  manifestGenTime : String
  cacheHash : String
  files : List (String × CacheEntryDoc)
deriving DecidableEq, Repr

/-- Go's struct-field matching: exact name, else ASCII case-insensitive. -/
def keyMatch (jsonKey fieldName : String) : Bool :=
  jsonKey == fieldName || lowerStr jsonKey == lowerStr fieldName

/-- Inserts or overwrites a map binding (Go map assignment while
decoding; duplicate JSON keys decode last-wins). -/
def upsertEntry (files : List (String × CacheEntryDoc)) (k : String) (v : CacheEntryDoc) :
    List (String × CacheEntryDoc) :=
  if files.any (fun kv => kv.1 == k) then
    files.map (fun kv => if kv.1 == k then (k, v) else kv)
  else files ++ [(k, v)]

/-- Decodes one `files` member into a `CacheEntryDoc`, with Go's
semantics: unknown keys are ignored, `null` leaves the field, a type
mismatch fails the decode. -/
def decodeEntry : JVal → Option CacheEntryDoc
  | .jobj fields =>
    fields.foldlM (fun e kv =>
      if keyMatch kv.1 "path" then
        match kv.2 with
        | .jstr s => some { e with path := s }
        | .jnull => some e
        | _ => none
      else if keyMatch kv.1 "size" then
        match kv.2 with
        | .jnum n => some { e with size := n }
        | .jnull => some e
        | _ => none
      else if keyMatch kv.1 "mod_time" then
        match kv.2 with
        | .jstr s => some { e with modTime := s }
        | .jnull => some e
        | _ => none
      else if keyMatch kv.1 "ctime" then
        match kv.2 with
        | .jstr s => some { e with ctime := s }
        | .jnull => some e
        | _ => none
      else some e)
      { path := "", size := 0, modTime := "", ctime := "" }
  | _ => none

/-- Decodes the `files` object. -/
def decodeFiles : JVal → Option (List (String × CacheEntryDoc))
  | .jobj fields =>
    fields.foldlM (fun acc kv =>
      match decodeEntry kv.2 with
      | some e => some (upsertEntry acc kv.1 e)
      | none => none) []
  | _ => none

/-- Decodes a parsed JSON value into a `CacheDoc` with Go's
`json.Unmarshal` semantics on this struct shape: unknown keys ignored,
missing keys keep their zero values.  (Go additionally validates the
RFC-3339 shape of the time strings; the inputs considered in the
theorems all carry well-formed timestamps.) -/
def decodeCacheDoc : JVal → Option CacheDoc
  | .jobj fields =>
    fields.foldlM (fun d kv =>
      if keyMatch kv.1 "version" then
        match kv.2 with
        | .jstr s => some { d with version := s }
        | .jnull => some d
        | _ => none
      else if keyMatch kv.1 "created_at" then
        match kv.2 with
        | .jstr s => some { d with createdAt := s }
        | .jnull => some d
        | _ => none
      else if keyMatch kv.1 "manifest_gen_time" then
        match kv.2 with
        | .jstr s => some { d with manifestGenTime := s }
        | .jnull => some d
        | _ => none
      else if keyMatch kv.1 "cache_hash" then
        match kv.2 with
        | .jstr s => some { d with cacheHash := s }
        | .jnull => some d
        | _ => none
      else if keyMatch kv.1 "files" then
        match kv.2 with
        | .jnull => some d
        | v =>
          match decodeFiles v with
          | some fs => some { d with files := fs }
          | none => none
      else some d)
      { version := "", createdAt := "", manifestGenTime := "", cacheHash := "", files := [] }
  | _ => none

/-- Parses raw cache-file bytes into a document. -/
def parseCacheDoc (s : String) : Option CacheDoc :=
  match parseJson s with
  | some v => decodeCacheDoc v
  | none => none

/-- Renders a JSON string literal.  The values the cache writer emits
(paths and RFC-3339 timestamps) contain no characters that Go's encoder
would escape. -/
def jstrLit (s : String) : String := "\"" ++ s ++ "\""

/-- Insertion step for sorting map keys (Go's encoder writes map keys in
ascending byte order). -/
def insertPairByKey (a : String × CacheEntryDoc) :
    List (String × CacheEntryDoc) → List (String × CacheEntryDoc)
  | [] => [a]
  | b :: rest => if strLtB a.1 b.1 then a :: b :: rest else b :: insertPairByKey a rest

/-- Sorts the `files` bindings by key, as `json.Marshal` does for maps. -/
def sortPairsByKey : List (String × CacheEntryDoc) → List (String × CacheEntryDoc)
  | [] => []
  | a :: rest => insertPairByKey a (sortPairsByKey rest)

/-- Compact `json.Marshal` of one entry (field order of the Go struct). -/
def marshalCompactEntry (e : CacheEntryDoc) : String :=
  jLBrace ++ jstrLit "path" ++ ":" ++ jstrLit e.path
    ++ "," ++ jstrLit "size" ++ ":" ++ toString e.size
    ++ "," ++ jstrLit "mod_time" ++ ":" ++ jstrLit e.modTime
    ++ "," ++ jstrLit "ctime" ++ ":" ++ jstrLit e.ctime ++ jRBrace

/-- Compact `json.Marshal` of a cache document, as hashed by `Save` and
`verifyCacheIntegrity`. -/
def marshalCompactDoc (d : CacheDoc) : String :=
  jLBrace ++ jstrLit "version" ++ ":" ++ jstrLit d.version
    ++ "," ++ jstrLit "created_at" ++ ":" ++ jstrLit d.createdAt
    ++ "," ++ jstrLit "manifest_gen_time" ++ ":" ++ jstrLit d.manifestGenTime
    ++ "," ++ jstrLit "cache_hash" ++ ":" ++ jstrLit d.cacheHash
    ++ "," ++ jstrLit "files" ++ ":"
    ++ jLBrace
    ++ String.intercalate ","
        ((sortPairsByKey d.files).map (fun kv => jstrLit kv.1 ++ ":" ++ marshalCompactEntry kv.2))
    ++ jRBrace
    ++ jRBrace

/-- `json.MarshalIndent` of one entry at nesting depth 2. -/
def marshalIndentEntry (e : CacheEntryDoc) : String :=
  jLBrace
    ++ "\n      \"path\": " ++ jstrLit e.path
    ++ ",\n      \"size\": " ++ toString e.size
    ++ ",\n      \"mod_time\": " ++ jstrLit e.modTime
    ++ ",\n      \"ctime\": " ++ jstrLit e.ctime
    ++ "\n    " ++ jRBrace

/-- `json.MarshalIndent` of the `files` map at nesting depth 1. -/
def marshalIndentFiles (files : List (String × CacheEntryDoc)) : String :=
  match sortPairsByKey files with
  | [] => jLBrace ++ jRBrace
  | fs =>
    jLBrace ++ "\n    "
      ++ String.intercalate ",\n    "
          (fs.map (fun kv => jstrLit kv.1 ++ ": " ++ marshalIndentEntry kv.2))
      ++ "\n  " ++ jRBrace

/-- `json.MarshalIndent(v.data, "", "  ")`, the bytes `Save` writes. -/
def marshalIndentDoc (d : CacheDoc) : String :=
  jLBrace
    ++ "\n  \"version\": " ++ jstrLit d.version
    ++ ",\n  \"created_at\": " ++ jstrLit d.createdAt
    ++ ",\n  \"manifest_gen_time\": " ++ jstrLit d.manifestGenTime
    ++ ",\n  \"cache_hash\": " ++ jstrLit d.cacheHash
    ++ ",\n  \"files\": " ++ marshalIndentFiles d.files
    ++ "\n" ++ jRBrace

/-- The document with its `cache_hash` field cleared for hashing. -/
def clearHash (d : CacheDoc) : CacheDoc := { d with cacheHash := "" }

/-- Embeds `verifyCacheIntegrity` (cache.go / part_003): an empty
`cache_hash` is accepted without any check; otherwise the SHA-256 of the
compact serialization with the hash cleared must equal the stored one. -/
def verifyCacheIntegrityDoc (H : String → String) (cache : CacheDoc) : Bool :=
  if cache.cacheHash == "" then true
  else H (marshalCompactDoc (clearHash cache)) == cache.cacheHash

/-- The fresh empty document `Load` installs on a missing file, a parse
failure or an integrity failure (`CreatedAt` = now; the zero time of the
unset fields is the empty string at this serialization level). -/
def freshDoc (nowS : String) : CacheDoc :=
  { version := "2.0", createdAt := nowS, manifestGenTime := "", cacheHash := "", files := [] }

/-- Embeds `Load` (cache.go / part_003) at the byte level.  `bytes = none`
is a missing cache file (empty document, no error).  The returned flag is
true when the non-fatal error is surfaced (parse failure or integrity
failure, both of which reset the document). -/
def loadCacheBytes (H : String → String) (nowS : String) (bytes : Option String) :
    CacheDoc × Bool :=
  match bytes with
  | none => (freshDoc nowS, false)
  | some data =>
    match parseCacheDoc data with
    | none => (freshDoc nowS, true)
    | some cache =>
      if verifyCacheIntegrityDoc H cache then (cache, false)
      else (freshDoc nowS, true)

/-- Embeds `Save` (cache.go / part_003): compute the self-hash over the
compact serialization with the hash cleared, store it, and write the
indented serialization (the temp-file + rename step does not change the
bytes). -/
def saveCacheBytes (H : String → String) (d : CacheDoc) : String :=
  let h := H (marshalCompactDoc (clearHash d))
  marshalIndentDoc { d with cacheHash := h }

/-- Replaces the byte at index `i` (a single-byte mutation of the
persisted file). -/
def mutateByte (s : String) (i : Nat) (c : Char) : String :=
  ⟨s.data.set i c⟩

/-- A concrete instantiation of the SHA-256 primitive for witnesses and
counterexamples: the decimal sum of the code points.  The theorems never
rely on collision-freeness of the primitive except where a hypothesis
states the needed inequality. -/
def hashSum (s : String) : String :=
  toString (s.data.foldl (fun a c => a + c.toNat) 0)

/-- Concrete instantiation of the external primitives for witnesses:
`hashSum` for SHA-256 and literal equality for the shell matcher (a
pattern without metacharacters matches exactly itself). -/
def prDemo : Prim :=
  { sha256Hex := hashSum, fpMatch := fun pattern s => pattern == s }

/-- Two-file demo tree. -/
def demoTree2 : List FSEntry :=
  [ { path := "a.txt", node := .file "A", size := 1, modTime := 0, ctime := 0 },
    { path := "b.txt", node := .file "B", size := 1, modTime := 0, ctime := 0 } ]

/-- Demo cache entry of the serialized demo document. -/
def demoEntryDoc : CacheEntryDoc :=
  { path := "/srv/app/a.txt", size := 10,
    modTime := "2024-01-02T03:04:05.1Z", ctime := "2024-01-02T03:04:05.1Z" }

/-- Demo in-memory cache document about to be persisted (`cache_hash`
still clear). -/
def demoDoc : CacheDoc :=
  { version := "2.0", createdAt := "2024-01-02T03:04:05.123456789Z",
    manifestGenTime := "2024-01-01T00:00:00Z", cacheHash := "",
    files := [("/srv/app/a.txt", demoEntryDoc)] }

/-- Clock reading used by the demo loads. -/
def demoNowS : String := "2024-06-01T00:00:00Z"

/-- Demo semantic cache entry. -/
def demoEntryA : MetadataEntry :=
  { path := "/srv/app/a.txt", size := 10, modTime := 7, ctime := 9 }

/-- Demo lstat reading whose ctime drifted 600 ns from the cached one. -/
def demoStatDrift : Stat := { size := 10, modTime := 7, ctime := 609 }

/-- Demo semantic cache document with one entry. -/
def demoCache : MetadataCache :=
  { version := "2.0", createdAt := 5, manifestGenTime := 0, cacheHash := "",
    files := [("/srv/app/a.txt", demoEntryA)] }

/-- Demo manifest-side record for the verifier witnesses. -/
def mRecDemo : FileInfo :=
  { path := "f.txt", hash := "h1", size := 1, modTime := 0, is_symlink := false, link_target := "" }

/-- Demo current-side record with a changed hash. -/
def cRecDemo : FileInfo :=
  { path := "f.txt", hash := "h2", size := 1, modTime := 0, is_symlink := false, link_target := "" }

/-- Demo tree containing only a tracked file. -/
def demoTreeA : List FSEntry :=
  [ { path := "a.txt", node := .file "A", size := 1, modTime := 0, ctime := 0 } ]

/-- Demo tree with an additional excluded log file. -/
def demoTreeAB : List FSEntry :=
  demoTreeA ++ [ { path := "b.log", node := .file "B", size := 1, modTime := 0, ctime := 0 } ]

/-- Demo manifest generated over `demoTreeA` with `b.log` excluded. -/
def demoManifest : Manifest :=
  Generate prDemo demoTreeA ["b.log"] "2024-01-01T00:00:00Z"

end Kekkai

namespace Kekkai

/-- A successful path lookup returns a record carrying that path. -/
theorem lookupPath_path_eq {l : List FileInfo} {p : String} {x : FileInfo}
    (h : lookupPath l p = some x) : x.path = p := by
  have := List.find?_some h
  simpa [beq_iff_eq] using this

/-- On a duplicate-free path list, the records with a looked-up path
form exactly the singleton of the lookup result. -/
theorem filter_path_eq_of_lookup (l : List FileInfo) (p : String) (x : FileInfo)
    (hnd : (l.map FileInfo.path).Nodup) (hf : lookupPath l p = some x) :
    l.filter (fun f => f.path == p) = [x] := by
  induction l with
  | nil => simp [lookupPath] at hf
  | cons y t ih =>
    simp only [List.map_cons, List.nodup_cons] at hnd
    by_cases h : (y.path == p) = true
    · have hyx : y = x := by
        simp only [lookupPath, List.find?_cons, h] at hf
        exact Option.some.inj hf
      subst hyx
      have hyp : y.path = p := by simpa [beq_iff_eq] using h
      have ht : t.filter (fun f => f.path == p) = [] := by
        rw [List.filter_eq_nil_iff]
        intro a ha
        intro hcon
        have hap : a.path = p := by simpa [beq_iff_eq] using hcon
        exact hnd.1 (hyp ▸ hap ▸ List.mem_map_of_mem FileInfo.path ha)
      simp [List.filter_cons, h, ht]
    · have hb : (y.path == p) = false := by simpa using h
      simp only [lookupPath, List.find?_cons, hb] at hf
      have := ih hnd.2 (by simpa [lookupPath] using hf)
      simpa [List.filter_cons, hb] using this

/-- C1: a regular file whose bytes are the string `symlink:` followed by
`S` yields a record with `is_symlink = false` and hash
`SHA256("symlink:" ++ S)`, a symlink with target `S` yields
`is_symlink = true` with the same hash, and when a manifest records one
kind while the live tree holds the other at the same path — in either
direction — verification emits exactly one finding for that path, the
type-change finding `modified: p (type file→symlink)` respectively
`modified: p (type symlink→file)`, and no hash finding.  `M`/`C` are a
manifest/current pair with the file in the manifest and the symlink
live; `M2`/`C2` the swapped pair. -/
theorem C1_symlink_file_discrimination (pr : Prim) (S p : String)
    (sz mt ct sz2 mt2 ct2 : Int) (M C M2 C2 : List FileInfo)
    (hM : (M.map FileInfo.path).Nodup)
    (hM2 : (M2.map FileInfo.path).Nodup)
    (hm : lookupPath M p
      = some (recordFor pr { path := p, node := .file ("symlink:" ++ S), size := sz, modTime := mt, ctime := ct }))
    (hc : lookupPath C p
      = some (recordFor pr { path := p, node := .symlink S, size := sz2, modTime := mt2, ctime := ct2 }))
    (hm2 : lookupPath M2 p
      = some (recordFor pr { path := p, node := .symlink S, size := sz2, modTime := mt2, ctime := ct2 }))
    (hc2 : lookupPath C2 p
      = some (recordFor pr { path := p, node := .file ("symlink:" ++ S), size := sz, modTime := mt, ctime := ct })) :
    (recordFor pr { path := p, node := .file ("symlink:" ++ S), size := sz, modTime := mt, ctime := ct }).is_symlink = false
    ∧ (recordFor pr { path := p, node := .file ("symlink:" ++ S), size := sz, modTime := mt, ctime := ct }).hash
        = pr.sha256Hex ("symlink:" ++ S)
    ∧ (recordFor pr { path := p, node := .symlink S, size := sz2, modTime := mt2, ctime := ct2 }).is_symlink = true
    ∧ (recordFor pr { path := p, node := .symlink S, size := sz2, modTime := mt2, ctime := ct2 }).hash
        = pr.sha256Hex ("symlink:" ++ S)
    ∧ (M.filter (fun f => f.path == p)).filterMap (manifestIssue C)
        = ["modified: " ++ p ++ " (type file→symlink)"]
    ∧ (C.filter (fun f => f.path == p)).filterMap (addedIssue M) = []
    ∧ (M2.filter (fun f => f.path == p)).filterMap (manifestIssue C2)
        = ["modified: " ++ p ++ " (type symlink→file)"]
    ∧ (C2.filter (fun f => f.path == p)).filterMap (addedIssue M2) = [] := by
  refine ⟨rfl, rfl, rfl, rfl, ?_, ?_, ?_, ?_⟩
  · rw [filter_path_eq_of_lookup M p _ hM hm]
    have hstr : "modified: " ++ p ++ " (type " ++ "file" ++ "→" ++ "symlink" ++ ")"
        = "modified: " ++ p ++ " (type file→symlink)" := by
      simp only [String.append_assoc]
      congr 1
    have hman : manifestIssue C
        (recordFor pr { path := p, node := .file ("symlink:" ++ S), size := sz, modTime := mt, ctime := ct })
        = some ("modified: " ++ p ++ " (type file→symlink)") := by
      simp only [manifestIssue, recordFor, hc]
      simp [fileIssue, typeName, hstr]
    simp [hman]
  · rw [List.filterMap_eq_nil_iff]
    intro a ha
    have hap : a.path = p := by
      have := (List.mem_filter.mp ha).2
      simpa [beq_iff_eq] using this
    simp [addedIssue, hap, hm]
  · rw [filter_path_eq_of_lookup M2 p _ hM2 hm2]
    have hstr : "modified: " ++ p ++ " (type " ++ "symlink" ++ "→" ++ "file" ++ ")"
        = "modified: " ++ p ++ " (type symlink→file)" := by
      simp only [String.append_assoc]
      congr 1
    have hman : manifestIssue C2
        (recordFor pr { path := p, node := .symlink S, size := sz2, modTime := mt2, ctime := ct2 })
        = some ("modified: " ++ p ++ " (type symlink→file)") := by
      simp only [manifestIssue, recordFor, hc2]
      simp [fileIssue, typeName, hstr]
    simp [hman]
  · rw [List.filterMap_eq_nil_iff]
    intro a ha
    have hap : a.path = p := by
      have := (List.mem_filter.mp ha).2
      simpa [beq_iff_eq] using this
    simp [addedIssue, hap, hm2]

/-- Witness for C1: a file `app.cfg` with bytes `symlink:t` against a
live symlink `app.cfg → t` gives the single `type file→symlink`
finding, and the swapped pair gives the single `type symlink→file`
finding. -/
theorem C1_symlink_file_discrimination_witness :
    ([recordFor prDemo { path := "app.cfg", node := .file ("symlink:" ++ "t"), size := 9, modTime := 0, ctime := 0 }].filter
        (fun f => f.path == "app.cfg")).filterMap
      (manifestIssue [recordFor prDemo { path := "app.cfg", node := .symlink "t", size := 1, modTime := 0, ctime := 0 }])
      = ["modified: " ++ "app.cfg" ++ " (type file→symlink)"]
    ∧ ([recordFor prDemo { path := "app.cfg", node := .symlink "t", size := 1, modTime := 0, ctime := 0 }].filter
        (fun f => f.path == "app.cfg")).filterMap
      (addedIssue [recordFor prDemo { path := "app.cfg", node := .file ("symlink:" ++ "t"), size := 9, modTime := 0, ctime := 0 }]) = []
    ∧ ([recordFor prDemo { path := "app.cfg", node := .symlink "t", size := 1, modTime := 0, ctime := 0 }].filter
        (fun f => f.path == "app.cfg")).filterMap
      (manifestIssue [recordFor prDemo { path := "app.cfg", node := .file ("symlink:" ++ "t"), size := 9, modTime := 0, ctime := 0 }])
      = ["modified: " ++ "app.cfg" ++ " (type symlink→file)"]
    ∧ ([recordFor prDemo { path := "app.cfg", node := .file ("symlink:" ++ "t"), size := 9, modTime := 0, ctime := 0 }].filter
        (fun f => f.path == "app.cfg")).filterMap
      (addedIssue [recordFor prDemo { path := "app.cfg", node := .symlink "t", size := 1, modTime := 0, ctime := 0 }]) = [] := by
  have h := C1_symlink_file_discrimination prDemo "t" "app.cfg" 9 0 0 1 0 0
    [recordFor prDemo { path := "app.cfg", node := .file ("symlink:" ++ "t"), size := 9, modTime := 0, ctime := 0 }]
    [recordFor prDemo { path := "app.cfg", node := .symlink "t", size := 1, modTime := 0, ctime := 0 }]
    [recordFor prDemo { path := "app.cfg", node := .symlink "t", size := 1, modTime := 0, ctime := 0 }]
    [recordFor prDemo { path := "app.cfg", node := .file ("symlink:" ++ "t"), size := 9, modTime := 0, ctime := 0 }]
    (by decide) (by decide) (by decide) (by decide) (by decide) (by decide)
  exact ⟨h.2.2.2.2.1, h.2.2.2.2.2.1, h.2.2.2.2.2.2.1, h.2.2.2.2.2.2.2⟩

/-- C2: for a path present in both maps the verifier emits at most one
finding, chosen as type change, else hash, else size; a manifest path
missing from the current map yields `deleted:`, a current path missing
from the manifest yields `added:`; and verification succeeds exactly
when the finding list is empty. -/
theorem C2_verifier_diff_rules (M C : List FileInfo) (p : String)
    (hM : (M.map FileInfo.path).Nodup) :
    (∀ m c, lookupPath M p = some m → lookupPath C p = some c →
        (M.filter (fun f => f.path == p)).filterMap (manifestIssue C) = (fileIssue m c).toList
        ∧ (C.filter (fun f => f.path == p)).filterMap (addedIssue M) = []
        ∧ (fileIssue m c).toList.length ≤ 1)
    ∧ (∀ m c : FileInfo,
        (m.is_symlink ≠ c.is_symlink →
          fileIssue m c = some ("modified: " ++ m.path ++ " (type "
            ++ typeName m.is_symlink ++ "→" ++ typeName c.is_symlink ++ ")"))
        ∧ (m.is_symlink = c.is_symlink → m.hash ≠ c.hash →
          fileIssue m c = some ("modified: " ++ m.path ++ " (hash)"))
        ∧ (m.is_symlink = c.is_symlink → m.hash = c.hash → m.size ≠ c.size →
          fileIssue m c = some ("modified: " ++ m.path ++ " (size "
            ++ toString m.size ++ "→" ++ toString c.size ++ ")"))
        ∧ (m.is_symlink = c.is_symlink → m.hash = c.hash → m.size = c.size →
          fileIssue m c = none))
    ∧ (∀ m, lookupPath M p = some m → lookupPath C p = none →
        ("deleted: " ++ p) ∈ verifyIssues M C)
    ∧ (∀ c, lookupPath C p = some c → lookupPath M p = none →
        ("added: " ++ p) ∈ verifyIssues M C)
    ∧ (∀ (pr : Prim) (mf : Manifest) (tree : List FSEntry),
        verifyWithCalculator pr mf tree = Except.ok () ↔
          verifyIssues mf.files (calculateDirectory pr tree mf.excludes).files = []) := by
  refine ⟨?_, ?_, ?_, ?_, ?_⟩
  · intro m c hm hc
    have hmp : m.path = p := lookupPath_path_eq hm
    refine ⟨?_, ?_, ?_⟩
    · rw [filter_path_eq_of_lookup M p m hM hm]
      have hman : manifestIssue C m = fileIssue m c := by
        simp [manifestIssue, hmp, hc]
      cases hfi : fileIssue m c <;> simp [hman, hfi]
    · rw [List.filterMap_eq_nil_iff]
      intro a ha
      have hap : a.path = p := by
        have := (List.mem_filter.mp ha).2
        simpa [beq_iff_eq] using this
      simp [addedIssue, hap, hm]
    · cases fileIssue m c <;> simp
  · intro m c
    refine ⟨?_, ?_, ?_, ?_⟩
    · intro h
      simp [fileIssue, bne_iff_ne.mpr h]
    · intro hs hh
      simp [fileIssue, hs, bne_iff_ne.mpr hh]
    · intro hs hh hz
      simp [fileIssue, hs, hh, bne_iff_ne.mpr hz]
    · intro hs hh hz
      simp [fileIssue, hs, hh, hz]
  · intro m hm hc
    have hmp : m.path = p := lookupPath_path_eq hm
    have hmem : m ∈ M := List.mem_of_find?_eq_some hm
    have hdel : manifestIssue C m = some ("deleted: " ++ p) := by
      simp [manifestIssue, hmp, hc]
    exact List.mem_append_left _ (List.mem_filterMap.mpr ⟨m, hmem, hdel⟩)
  · intro c hc hm
    have hcp : c.path = p := lookupPath_path_eq hc
    have hmem : c ∈ C := List.mem_of_find?_eq_some hc
    have hadd : addedIssue M c = some ("added: " ++ p) := by
      simp [addedIssue, hcp, hm]
    exact List.mem_append_right _ (List.mem_filterMap.mpr ⟨c, hmem, hadd⟩)
  · intro pr mf tree
    simp only [verifyWithCalculator]
    cases hiss : verifyIssues mf.files (calculateDirectory pr tree mf.excludes).files with
    | nil => simp
    | cons a t => simp

/-- Witness for C2 at a one-record pair diverging only in hash: the path
contributes exactly the hash finding and the verifier succeeds on the
matching tree. -/
theorem C2_verifier_diff_rules_witness :
    (([mRecDemo].filter (fun f => f.path == "f.txt")).filterMap (manifestIssue [cRecDemo])
        = (fileIssue mRecDemo cRecDemo).toList
      ∧ ([cRecDemo].filter (fun f => f.path == "f.txt")).filterMap (addedIssue [mRecDemo]) = []
      ∧ (fileIssue mRecDemo cRecDemo).toList.length ≤ 1)
    ∧ fileIssue mRecDemo cRecDemo = some ("modified: " ++ "f.txt" ++ " (hash)") := by
  have h := C2_verifier_diff_rules [mRecDemo] [cRecDemo] "f.txt" (by decide)
  refine ⟨h.1 mRecDemo cRecDemo (by decide) (by decide), ?_⟩
  exact (h.2.1 mRecDemo cRecDemo).2.1 (by decide) (by decide)

/-- C5: a loaded cache document is judged valid for manifest generation
time `t` iff its `created_at` is at least `t`; when it is judged valid
the document (with the manifest time recorded) is used as is, and when
it is judged invalid it is cleared before use — all entries dropped and
`created_at` reset to the current time — after which every metadata
check returns false until entries are re-populated. -/
theorem C5_cache_validity_and_clear (d : MetadataCache) (t now : Int) :
    (IsValidForManifest (some d) t = decide (t ≤ d.createdAt))
    ∧ (t ≤ d.createdAt → EnableMetadataCache d t now = SetManifestTime d t)
    ∧ (d.createdAt < t →
        EnableMetadataCache d t now = clearCache now
        ∧ (clearCache now).files = []
        ∧ (clearCache now).createdAt = now
        ∧ ∀ pf p st, CheckMetadata pf (some (clearCache now)) p st = false) := by
  have hval : ∀ t' : Int, IsValidForManifest (some d) t' = decide (t' ≤ d.createdAt) := by
    intro t'
    simp only [IsValidForManifest]
    rcases lt_trichotomy t' d.createdAt with h | h | h
    · simp [h, le_of_lt h]
    · simp [h.symm, le_of_eq h.symm]
    · have h1 : ¬ t' < d.createdAt := by omega
      have h2 : ¬ d.createdAt = t' := by omega
      have h3 : ¬ t' ≤ d.createdAt := by omega
      simp [h1, h2, h3]
  refine ⟨hval t, ?_, ?_⟩
  · intro h
    have : IsValidForManifest (some (SetManifestTime d t)) t = true := by
      simp only [SetManifestTime, IsValidForManifest]
      rcases lt_or_eq_of_le h with h' | h'
      · simp [h']
      · simp [h'.symm]
    simp [EnableMetadataCache, this]
  · intro h
    have : IsValidForManifest (some (SetManifestTime d t)) t = false := by
      simp only [SetManifestTime, IsValidForManifest]
      have h1 : ¬ t < d.createdAt := by omega
      have h2 : ¬ d.createdAt = t := by omega
      simp [h1, h2]
    refine ⟨by simp [EnableMetadataCache, this], rfl, rfl, ?_⟩
    intro pf p st
    rfl

/-- Witness for C5 at a concrete invalid cache: `created_at = 5` is
older than manifest time 10, so the cache is cleared and a check of the
previously cached path fails. -/
theorem C5_cache_validity_and_clear_witness :
    IsValidForManifest (some demoCache) 10 = false
    ∧ EnableMetadataCache demoCache 10 20 = clearCache 20
    ∧ CheckMetadata .linux (some (clearCache 20)) "/srv/app/a.txt"
        (some { size := 10, modTime := 7, ctime := 9 }) = false := by
  have h := (C5_cache_validity_and_clear demoCache 10 20).2.2 (by decide)
  exact ⟨by decide, h.1, h.2.2.2 .linux "/srv/app/a.txt" _⟩

/-- C6: for a path with a stored cache entry and a readable stat, the
metadata check succeeds iff size and mtime compare exactly equal and the
ctime comparison passes the platform rule: exact nanosecond equality on
the darwin build, at most 1 µs (1000 ns) of absolute drift on the linux
build. -/
theorem C6_ctime_platform_tolerance (pf : Platform) (d : MetadataCache) (p : String)
    (entry : MetadataEntry) (s : Stat)
    (hent : lookupEntry d.files p = some entry) :
    (CheckMetadata pf (some d) p (some s) = true ↔
      (s.size = entry.size ∧ s.modTime = entry.modTime
        ∧ isTimeEqualPlatform pf s.ctime entry.ctime = true))
    ∧ (∀ t1 t2 : Int, isTimeEqualPlatform .darwin t1 t2 = true ↔ t1 = t2)
    ∧ (∀ t1 t2 : Int, isTimeEqualPlatform .linux t1 t2 = true ↔ (t1 - t2).natAbs ≤ 1000) := by
  refine ⟨?_, ?_, ?_⟩
  · simp only [CheckMetadata, hent]
    by_cases h1 : s.size = entry.size <;>
      by_cases h2 : s.modTime = entry.modTime <;>
        by_cases h3 : isTimeEqualPlatform pf s.ctime entry.ctime = true <;>
          simp [h1, h2, h3, bne]
  · intro t1 t2
    simp [isTimeEqualPlatform]
  · intro t1 t2
    simp only [isTimeEqualPlatform]
    split_ifs with h1 h2 <;> simp_all <;> omega

/-- Witness for C6: on linux a 600 ns ctime drift passes while on darwin
it fails; exact size and mtime are required. -/
theorem C6_ctime_platform_tolerance_witness :
    CheckMetadata .linux (some demoCache) "/srv/app/a.txt" (some demoStatDrift) = true
    ∧ CheckMetadata .darwin (some demoCache) "/srv/app/a.txt" (some demoStatDrift) = false := by
  have hl := (C6_ctime_platform_tolerance .linux demoCache "/srv/app/a.txt"
    demoEntryA demoStatDrift (by decide)).1
  have hd := (C6_ctime_platform_tolerance .darwin demoCache "/srv/app/a.txt"
    demoEntryA demoStatDrift (by decide)).1
  refine ⟨hl.mpr ⟨rfl, rfl, by decide⟩, ?_⟩
  cases hcm : CheckMetadata .darwin (some demoCache) "/srv/app/a.txt" (some demoStatDrift) with
  | false => rfl
  | true => exact absurd (hd.mp hcm).2.2 (by decide)

/-- C9: when the persisted cache document's `cache_hash` field is the
empty string, `verifyCacheIntegrity` accepts unconditionally, so `Load`
accepts the parsed document without any integrity verification — a
tampered cache whose `cache_hash` was also cleared passes the load-time
check. -/
theorem C9_empty_cache_hash_accepted (H : String → String) (d : CacheDoc)
    (hd : d.cacheHash = "") :
    verifyCacheIntegrityDoc H d = true
    ∧ (∀ nowS bytes, parseCacheDoc bytes = some d →
        loadCacheBytes H nowS (some bytes) = (d, false)) := by
  have h1 : verifyCacheIntegrityDoc H d = true := by
    simp [verifyCacheIntegrityDoc, hd]
  exact ⟨h1, fun nowS bytes hp => by simp [loadCacheBytes, hp, h1]⟩

/-- Witness for C9: the saved demo cache file with the first byte of the
`cache_hash` key flipped to `x`; the field becomes unknown, the decoded
document carries an empty `cache_hash` and one live entry, and load
accepts it without error. -/
theorem C9_empty_cache_hash_accepted_witness :
    demoDoc.cacheHash = ""
    ∧ demoDoc.files ≠ []
    ∧ loadCacheBytes hashSum demoNowS
        (some (mutateByte (saveCacheBytes hashSum demoDoc) 122 'x')) = (demoDoc, false) := by
  refine ⟨rfl, by decide, ?_⟩
  exact (C9_empty_cache_hash_accepted hashSum demoDoc rfl).2 demoNowS
    (mutateByte (saveCacheBytes hashSum demoDoc) 122 'x') (by decide)

/-- C10: when the metadata cache is enabled, the metadata check for a
regular file succeeds, the probabilistic draw chooses to skip
re-hashing, and no manifest hash map was supplied to the calculator, the
worker emits a FileRecord whose hash field is the empty string rather
than the file's content hash. -/
theorem C10_cache_hit_nil_map_empty_hash (pr : Prim) (pf : Platform)
    (c : Calculator) (randVal : Rat) (e : FSEntry) (contents : String)
    (d : Option MetadataCache)
    (hnode : e.node = .file contents)
    (hcache : c.metadataCache = some d)
    (hcheck : CheckMetadata pf d e.path (some { size := e.size, modTime := e.modTime, ctime := e.ctime }) = true)
    (hdraw : (c.verifyProbability == 0 || Rat.blt c.verifyProbability randVal) = true)
    (hmap : c.manifestHashes = none) :
    (workerProcess pr pf c randVal e).hash = "" := by
  simp [workerProcess, hnode, hcache, hcheck, hdraw, hmap]

/-- Witness for C10 at a concrete file, cache and calculator. -/
theorem C10_cache_hit_nil_map_empty_hash_witness :
    (workerProcess prDemo .linux
      { metadataCache := some (some
          { version := "2.0", createdAt := 5, manifestGenTime := 0, cacheHash := "",
            files := [("a.txt", { path := "a.txt", size := 1, modTime := 0, ctime := 0 })] })
        verifyProbability := 0
        manifestHashes := none }
      0
      { path := "a.txt", node := .file "A", size := 1, modTime := 0, ctime := 0 }).hash = "" := by
  exact C10_cache_hit_nil_map_empty_hash prDemo .linux _ 0 _ "A" _
    rfl rfl (by decide) (by decide) rfl

/-- C3 counterexample: a run over two work items whose cancellation
signal fires after the first job returns a *successful* result holding
exactly one record — not a cancellation error with no records as the
claim states (no worker sends an error when it exits through the
`ctx.Done()` arm). -/
theorem C3_counterexample_partial_success :
    demoTree2.length = 2
    ∧ calculateFileHashesCancelled prDemo (some 1) demoTree2
        = Except.ok [{ path := "a.txt", hash := "65", size := 1, modTime := 0,
                       is_symlink := false, link_target := "" }] :=
  ⟨by decide, rfl⟩

/-- C3 amended: a run whose cancellation signal fires after `k` of the
work items (`k` less than the total) and that uses no rate limiter
returns a successful result containing exactly the records of the `k`
processed items — a strict subset — and surfaces no cancellation
error. -/
theorem C3_cancelled_partial_result (pr : Prim) (k : Nat) (files : List FSEntry)
    (hk : k < files.length) :
    calculateFileHashesCancelled pr (some k) files
      = Except.ok ((files.take k).map (recordFor pr))
    ∧ ((files.take k).map (recordFor pr)).length = k := by
  refine ⟨rfl, ?_⟩
  simp [List.length_take]
  omega

/-- Witness for the amended C3 at the two-file demo tree with
cancellation after one job. -/
theorem C3_cancelled_partial_result_witness :
    calculateFileHashesCancelled prDemo (some 1) demoTree2
      = Except.ok ((demoTree2.take 1).map (recordFor prDemo))
    ∧ ((demoTree2.take 1).map (recordFor prDemo)).length = 1 :=
  C3_cancelled_partial_result prDemo 1 demoTree2 (by decide)

/-- C4 counterexample: a single-byte mutation of the persisted demo
cache file — the indentation space at index 2 becomes a tab — leaves
the parsed document unchanged, so the recomputed self-hash still
matches and load returns the document with its entry intact and no
error, instead of resetting to an empty document. -/
theorem C4_counterexample_whitespace_mutation :
    (saveCacheBytes hashSum demoDoc).length ≠ 0
    ∧ (saveCacheBytes hashSum demoDoc).data.get? 2 = some ' '
    ∧ mutateByte (saveCacheBytes hashSum demoDoc) 2 '\t' ≠ saveCacheBytes hashSum demoDoc
    ∧ loadCacheBytes hashSum demoNowS
        (some (mutateByte (saveCacheBytes hashSum demoDoc) 2 '\t'))
        = ({ demoDoc with cacheHash := hashSum (marshalCompactDoc demoDoc) }, false)
    ∧ ({ demoDoc with cacheHash := hashSum (marshalCompactDoc demoDoc) } : CacheDoc).files ≠ [] := by
  exact ⟨by decide, by decide, by decide, by decide, by decide⟩

/-- C4 amended: a single-byte mutation of the non-empty persisted cache
file makes load reset the in-memory document to an empty one (with a
non-fatal error) exactly when the mutated bytes fail to parse as a cache
document or the parsed document fails the `cache_hash` self-check;
mutations that leave the parsed document unchanged (such as inter-token
whitespace edits, or edits that only make the `cache_hash` key
unrecognized) are accepted without reset. -/
theorem C4_load_reset_characterization (H : String → String) (nowS bytes : String) :
    (parseCacheDoc bytes = none →
      loadCacheBytes H nowS (some bytes) = (freshDoc nowS, true))
    ∧ (∀ d, parseCacheDoc bytes = some d → verifyCacheIntegrityDoc H d = false →
      loadCacheBytes H nowS (some bytes) = (freshDoc nowS, true))
    ∧ (∀ d, parseCacheDoc bytes = some d → verifyCacheIntegrityDoc H d = true →
      loadCacheBytes H nowS (some bytes) = (d, false)) := by
  refine ⟨?_, ?_, ?_⟩
  · intro hp
    simp [loadCacheBytes, hp]
  · intro d hp hv
    simp [loadCacheBytes, hp, hv]
  · intro d hp hv
    simp [loadCacheBytes, hp, hv]

/-- Witness for the amended C4: mutating the digit `1` of the stored
size (byte 227, `1` to `2`) changes the parsed document, the recomputed
self-hash no longer matches, and load resets to the empty document with
an error. -/
theorem C4_load_reset_characterization_witness :
    (saveCacheBytes hashSum demoDoc).data.get? 227 = some '1'
    ∧ loadCacheBytes hashSum demoNowS
        (some (mutateByte (saveCacheBytes hashSum demoDoc) 227 '2'))
        = (freshDoc demoNowS, true) :=
  ⟨by decide,
   (C4_load_reset_characterization hashSum demoNowS
      (mutateByte (saveCacheBytes hashSum demoDoc) 227 '2')).2.1
      { demoDoc with
        cacheHash := hashSum (marshalCompactDoc demoDoc),
        files := [("/srv/app/a.txt", { demoEntryDoc with size := 20 })] }
      (by decide) (by decide)⟩

/-- C7: the verifier diffs against a recomputation driven exactly by the
manifest's stored excludes: its outcome depends only on the part of the
live tree those stored excludes admit — so no caller-supplied exclude
list influences which paths are compared — and an entry whose relative
path matches a stored exclude pattern never enters the comparison. -/
theorem C7_verifier_uses_stored_excludes (pr : Prim) (m : Manifest) (T T2 : List FSEntry)
    (h : collectFiles pr T m.excludes = collectFiles pr T2 m.excludes) :
    verifyWithCalculator pr m T = verifyWithCalculator pr m T2
    ∧ ∀ e ∈ T, matchExcludePatterns pr e.path m.excludes = true →
        e ∉ collectFiles pr T m.excludes := by
  constructor
  · simp only [verifyWithCalculator, calculateDirectory, h]
  · intro e he hmatch hmem
    have hcol := (List.mem_filter.mp hmem).2
    simp [isCollected, hmatch] at hcol

/-- Witness for C7: adding an excluded `b.log` to the tree leaves
verification unchanged, and it succeeds. -/
theorem C7_verifier_uses_stored_excludes_witness :
    verifyWithCalculator prDemo demoManifest demoTreeA
      = verifyWithCalculator prDemo demoManifest demoTreeAB
    ∧ verifyWithCalculator prDemo demoManifest demoTreeAB = Except.ok () :=
  ⟨(C7_verifier_uses_stored_excludes prDemo demoManifest demoTreeA demoTreeAB (by decide)).1,
   rfl⟩

end Kekkai

namespace Kekkai

/-- Strict byte order is asymmetric. -/
theorem charListLtB_asymm : ∀ (a b : List Char),
    charListLtB a b = true → charListLtB b a = false
  | [], [] => by simp [charListLtB]
  | [], _ :: _ => by simp [charListLtB]
  | _ :: _, [] => by simp [charListLtB]
  | a :: as, b :: bs => by
    simp only [charListLtB]
    by_cases h1 : a.toNat < b.toNat
    · have h2 : ¬ b.toNat < a.toNat := by omega
      simp [h1, h2]
    · by_cases h2 : b.toNat < a.toNat
      · simp [h1, h2]
      · simp only [h1, h2, if_false]
        exact charListLtB_asymm as bs

/-- Strict byte order is transitive. -/
theorem charListLtB_trans : ∀ (a b c : List Char),
    charListLtB a b = true → charListLtB b c = true → charListLtB a c = true
  | [], [], _ => by simp [charListLtB]
  | [], _ :: _, [] => by simp [charListLtB]
  | [], _ :: _, _ :: _ => by simp [charListLtB]
  | _ :: _, [], _ => by simp [charListLtB]
  | _ :: _, _ :: _, [] => by simp [charListLtB]
  | a :: as, b :: bs, c :: cs => by
    simp only [charListLtB]
    by_cases h1 : a.toNat < b.toNat <;> by_cases h2 : b.toNat < c.toNat <;>
      by_cases h3 : b.toNat < a.toNat <;> by_cases h4 : c.toNat < b.toNat <;>
        by_cases h5 : a.toNat < c.toNat <;> by_cases h6 : c.toNat < a.toNat <;>
          simp [h1, h2, h3, h4, h5, h6] <;>
            first
            | omega
            | exact charListLtB_trans as bs cs

/-- Two lists neither of which is below the other are equal. -/
theorem charListLtB_eq_of_not : ∀ (a b : List Char),
    charListLtB a b = false → charListLtB b a = false → a = b
  | [], [] => by simp
  | [], _ :: _ => by simp [charListLtB]
  | _ :: _, [] => by simp [charListLtB]
  | a :: as, b :: bs => by
    simp only [charListLtB]
    by_cases h1 : a.toNat < b.toNat
    · simp [h1]
    · by_cases h2 : b.toNat < a.toNat
      · simp [h1, h2]
      · simp only [h1, h2, if_false]
        intro hab hba
        have hn : a.toNat = b.toNat := by omega
        have hc : a = b := by
          have := congrArg Char.ofNat hn
          rwa [Char.ofNat_toNat, Char.ofNat_toNat] at this
        rw [hc, charListLtB_eq_of_not as bs hab hba]

/-- String antisymmetry of the boolean byte order. -/
theorem strLtB_antisymm_eq (s t : String) (h1 : strLtB s t = false)
    (h2 : strLtB t s = false) : s = t := by
  cases s with
  | mk d1 =>
    cases t with
    | mk d2 => exact congrArg String.mk (charListLtB_eq_of_not d1 d2 h1 h2)

/-- The record emitted by a worker keeps the work item's path. -/
theorem recordFor_path (pr : Prim) (e : FSEntry) : (recordFor pr e).path = e.path := by
  cases h : e.node <;> simp [recordFor, h]

/-- Inserting into the sort is a permutation. -/
theorem insertByPath_perm (a : FileInfo) (l : List FileInfo) :
    (insertByPath a l).Perm (a :: l) := by
  induction l with
  | nil => exact List.Perm.refl _
  | cons b t ih =>
    simp only [insertByPath]
    by_cases h : strLtB a.path b.path = true
    · simp [h]
    · have hb : strLtB a.path b.path = false := by simpa using h
      simp only [hb, Bool.false_eq_true, if_false]
      exact (ih.cons b).trans (List.Perm.swap a b t)

/-- The sort step is a permutation of its input. -/
theorem sortByPath_perm (l : List FileInfo) : (sortByPath l).Perm l := by
  induction l with
  | nil => exact List.Perm.refl _
  | cons a t ih =>
    exact (insertByPath_perm a (sortByPath t)).trans (ih.cons a)

/-- Inserting into a path-sorted list keeps it path-sorted. -/
theorem insertByPath_sorted (a : FileInfo) (l : List FileInfo)
    (h : l.Pairwise (fun x y => strLtB y.path x.path = false)) :
    (insertByPath a l).Pairwise (fun x y => strLtB y.path x.path = false) := by
  induction l with
  | nil => simp [insertByPath]
  | cons b t ih =>
    rcases List.pairwise_cons.mp h with ⟨hbt, ht⟩
    simp only [insertByPath]
    by_cases hab : strLtB a.path b.path = true
    · rw [if_pos hab]
      refine List.pairwise_cons.mpr ⟨?_, h⟩
      intro x hx
      rcases List.mem_cons.mp hx with hxb | hxt
      · subst hxb
        exact charListLtB_asymm _ _ hab
      · cases hax : strLtB x.path a.path with
        | false => rfl
        | true =>
          have hxb : strLtB x.path b.path = true :=
            charListLtB_trans _ _ _ hax hab
          rw [hbt x hxt] at hxb
          exact Bool.noConfusion hxb
    · have hb : strLtB a.path b.path = false := by simpa using hab
      rw [if_neg (by simp [hb])]
      refine List.pairwise_cons.mpr ⟨?_, ih ht⟩
      intro x hx
      have hmem : x ∈ a :: t := (insertByPath_perm a t).mem_iff.mp hx
      rcases List.mem_cons.mp hmem with hxa | hxt
      · subst hxa
        exact hb
      · exact hbt x hxt

/-- The output of the sort step is path-sorted. -/
theorem sortByPath_sorted (l : List FileInfo) :
    (sortByPath l).Pairwise (fun x y => strLtB y.path x.path = false) := by
  induction l with
  | nil => simp [sortByPath]
  | cons a t ih => exact insertByPath_sorted a (sortByPath t) ih

/-- Two path-sorted lists that are permutations of each other and have
duplicate-free paths are equal. -/
theorem sorted_nodup_perm_eq : ∀ (l1 l2 : List FileInfo),
    l1.Perm l2 →
    l1.Pairwise (fun x y => strLtB y.path x.path = false) →
    l2.Pairwise (fun x y => strLtB y.path x.path = false) →
    (l1.map FileInfo.path).Nodup → l1 = l2
  | [], l2, hp, _, _, _ => (hp.nil_eq).symm ▸ rfl
  | a :: t1, [], hp, _, _, _ => absurd hp.symm.nil_eq (by simp)
  | a :: t1, b :: t2, hp, hs1, hs2, hnd => by
    rcases List.pairwise_cons.mp hs1 with ⟨ha1, ht1⟩
    rcases List.pairwise_cons.mp hs2 with ⟨hb2, ht2⟩
    simp only [List.map_cons, List.nodup_cons] at hnd
    by_cases hab : a = b
    · subst hab
      have hteq := sorted_nodup_perm_eq t1 t2 (hp.cons_inv) ht1 ht2 hnd.2
      rw [hteq]
    · have hamem : a ∈ b :: t2 := hp.mem_iff.mp (List.mem_cons_self a t1)
      have hat2 : a ∈ t2 := by
        rcases List.mem_cons.mp hamem with h' | h'
        · exact absurd h' hab
        · exact h'
      have hbmem : b ∈ a :: t1 := hp.symm.mem_iff.mp (List.mem_cons_self b t2)
      have hbt1 : b ∈ t1 := by
        rcases List.mem_cons.mp hbmem with h' | h'
        · exact absurd h'.symm hab
        · exact h'
      have hle1 : strLtB b.path a.path = false := ha1 b hbt1
      have hle2 : strLtB a.path b.path = false := hb2 a hat2
      have hpeq : a.path = b.path := strLtB_antisymm_eq a.path b.path hle2 hle1
      exact absurd (hpeq ▸ List.mem_map_of_mem FileInfo.path hbt1) hnd.1

/-- Sorting is invariant under permutation of duplicate-free inputs. -/
theorem sortByPath_eq_of_perm (l1 l2 : List FileInfo) (hp : l1.Perm l2)
    (hnd : (l1.map FileInfo.path).Nodup) : sortByPath l1 = sortByPath l2 := by
  refine sorted_nodup_perm_eq _ _ ?_ (sortByPath_sorted l1) (sortByPath_sorted l2) ?_
  · exact (sortByPath_perm l1).trans (hp.trans (sortByPath_perm l2).symm)
  · exact (((sortByPath_perm l1).map FileInfo.path).nodup_iff).mpr hnd

/-- C8: for a fixed tree and excludes, the files array of the directory
calculation is the same for any two worker completion orders (any two
permutations of the collected work items), equals the path-sorted record
list of the collected files, and is sorted ascending by path — it does
not depend on worker count, scheduling, or completion order. -/
theorem C8_deterministic_output (pr : Prim) (T : List FSEntry) (E : List String)
    (order1 order2 : List FSEntry)
    (h1 : order1.Perm (collectFiles pr T E)) (h2 : order2.Perm (collectFiles pr T E))
    (hnd : ((collectFiles pr T E).map FSEntry.path).Nodup) :
    sortByPath (order1.map (recordFor pr)) = sortByPath (order2.map (recordFor pr))
    ∧ (calculateDirectory pr T E).files = sortByPath ((collectFiles pr T E).map (recordFor pr))
    ∧ (calculateDirectory pr T E).files.Pairwise (fun x y => strLtB y.path x.path = false) := by
  have hpathmap : ∀ (l : List FSEntry),
      ((l.map (recordFor pr)).map FileInfo.path) = l.map FSEntry.path := by
    intro l
    rw [List.map_map]
    exact List.map_congr_left (fun e _ => recordFor_path pr e)
  have hmap1 : (order1.map (recordFor pr)).Perm ((collectFiles pr T E).map (recordFor pr)) :=
    h1.map (recordFor pr)
  have hmap2 : (order2.map (recordFor pr)).Perm ((collectFiles pr T E).map (recordFor pr)) :=
    h2.map (recordFor pr)
  have hnd1 : ((order1.map (recordFor pr)).map FileInfo.path).Nodup := by
    rw [hpathmap order1]
    exact ((h1.map FSEntry.path).nodup_iff).mpr hnd
  refine ⟨?_, rfl, ?_⟩
  · exact (sortByPath_eq_of_perm _ _ (hmap1.trans hmap2.symm) hnd1)
  · exact sortByPath_sorted _

/-- Witness for C8: the two completion orders of the two-file demo tree
produce the same sorted files array. -/
theorem C8_deterministic_output_witness :
    sortByPath (demoTree2.reverse.map (recordFor prDemo))
      = sortByPath (demoTree2.map (recordFor prDemo))
    ∧ (calculateDirectory prDemo demoTree2 []).files
        = sortByPath ((collectFiles prDemo demoTree2 []).map (recordFor prDemo))
    ∧ (calculateDirectory prDemo demoTree2 []).files.Pairwise
        (fun x y => strLtB y.path x.path = false) :=
  C8_deterministic_output prDemo demoTree2 [] demoTree2.reverse demoTree2
    (by decide) (by decide) (by decide)

end Kekkai
